import Mathlib

/-
Shallow embedding of the resumable CAPES-DOI enrichment pipeline
(src/pipeline_with_resume.py, class CAPESDOIEnricherFinal) and proofs of
the specification's claims about it.

Modelling conventions:
  * Python strings are Lean `String`s (lists of characters).  `str.strip()`
    is `String.trim`, `str.upper()` is a character-wise ASCII upper-casing
    (accented characters are left unchanged; no claim depends on them),
    and `s[:n]` is `take` on the character list.
  * A pandas cell that may be NaN/None is an `Option String`.
  * The regular expressions in `skip_patterns` are translated to decidable
    predicates over the already-trimmed title string, following Python
    `re.match` semantics (in particular `.` does not match a newline, and
    the strings the patterns are applied to are stripped, so the
    "dollar before a trailing newline" case cannot arise).
  * SQLite tables are association lists; `INSERT OR REPLACE` is modelled
    by removing any previous binding for the key and prepending the new
    one, and point lookup takes the first binding.
  * The rapidfuzz similarity scorer is an external library, not code of
    this repository; it is modelled as an abstract parameter
    `sim : String -> String -> Nat` (scores 0-100), exactly as the code
    threads it through `find_best_match`.
-/

namespace CapesDOI

/-- ASCII upper-casing of one character, as used by Python upper() on the
letters the pipeline cares about. -/
def upChar (c : Char) : Char := c.toUpper

/-- Python str.strip(): remove leading and trailing whitespace characters.
Defined on the character list so that it evaluates inside the kernel. -/
def strip (s : String) : String :=
  ⟨((s.data.dropWhile Char.isWhitespace).reverse.dropWhile Char.isWhitespace).reverse⟩

/-- Character list of a string after strip and upper-casing, the combination
the pipeline applies before truncation and comparison. -/
def trimUpper (s : String) : List Char := (strip s).data.map upChar

/-- Embeds normalize_title: pandas-missing or the exact empty string give
None, anything else is stripped, upper-cased and cut to 200 characters.
Note a whitespace-only input is neither missing nor equal to the empty
string, so it falls through to the second branch. -/
def normalize_title : Option String → Option String
  | none => none
  | some t => if t = "" then none else some ⟨(trimUpper t).take 200⟩

/-- Regex r-str up-run pattern: at least ten characters, all of them capital
letters or whitespace, spanning the whole (trimmed) string. -/
def pat_upper (s : String) : Bool :=
  (10 ≤ s.length) && s.data.all (fun c => (decide ('A' ≤ c ∧ c ≤ 'Z')) || c.isWhitespace)

/-- Regex digits pattern: one or more digits followed only by whitespace. -/
def pat_digits (s : String) : Bool :=
  (!(s.data.takeWhile Char.isDigit).isEmpty)
    && (s.data.dropWhile Char.isDigit).all Char.isWhitespace

/-- Regex short pattern, dot zero-to-five anchored: matches the trimmed
string exactly when it has at most five characters none of which is a
newline, because the dot of a Python regex never matches a newline. -/
def pat_short (s : String) : Bool :=
  (s.length ≤ 5) && !(s.data.contains '\n')

/-- Regex long pattern, dot two-hundred-fifty-or-more anchored: at least 250
characters and no newline among them. -/
def pat_long (s : String) : Bool :=
  (250 ≤ s.length) && !(s.data.contains '\n')

/-- Substring test on character lists (Python `in` on strings). -/
def containsSub (hay need : List Char) : Bool :=
  hay.tails.any (fun t => need.isPrefixOf t)

/-- Portuguese boilerplate markers checked against the upper-cased title. -/
def portuguese_indicators : List String :=
  ["OCORRÊNCIA DE", "PREVALÊNCIA DE", "ESTUDO DE CASO"]

/-- Boilerplate-marker test of should_skip_title. -/
def has_portuguese (s : String) : Bool :=
  portuguese_indicators.any (fun ind => containsSub (s.data.map upChar) ind.data)

/-- Embeds should_skip_title: missing or blank titles are skipped, then the
four skip_patterns and the boilerplate markers are tried on the trimmed
string, any hit meaning skip. -/
def should_skip_title : Option String → Bool
  | none => true
  | some title =>
    if strip title = "" then true
    else
      let s := strip title
      pat_upper s || pat_digits s || pat_short s || pat_long s || has_portuguese s

/-- Upper-case every character of a string (Python upper(), ASCII part). -/
def upperStr (s : String) : String := ⟨s.data.map upChar⟩

/-- Cleaning applied by find_best_match to both sides of a comparison:
upper() then strip(), in source order. -/
def clean (s : String) : String := strip (upperStr s)

/-- Similarity threshold of the enricher (self.similarity_threshold). -/
def similarity_threshold : Nat := 90

/-- Result dictionary produced per title: identifier, matched title,
similarity score and the served-from-cache provenance flag. -/
structure MatchResult where
  doi : Option String
  crossref_title : Option String
  similarity_score : Nat
  from_cache : Bool
  deriving DecidableEq, Repr

/-- One item of the external search response: an optional identifier
(item DOI key) and an optional list of title strings (item title key;
none stands for an absent or falsy value, in particular an empty list
is kept distinct from an absent key only in that both are rejected). -/
structure CrossrefItem where
  doi : Option String
  title : Option (List String)
  deriving DecidableEq, Repr

/-- Title string the loop body extracts from an item: the first element of
the title list when the title value is present and non-empty (truthy),
otherwise the empty string. -/
def extractTitle (item : CrossrefItem) : String :=
  match item.title with
  | none => ""
  | some [] => ""
  | some (t :: _) => t

/-- Embeds find_best_match: walk the candidates in input order, skip those
with an empty extracted title, and return the first whose similarity score
against the cleaned source title meets the threshold.  The scorer sim is
the external rapidfuzz token_sort_ratio, kept abstract. -/
def find_best_match (sim : String → String → Nat) (original_title : String) :
    List CrossrefItem → Option MatchResult
  | [] => none
  | item :: rest =>
    let t := extractTitle item
    if t = "" then find_best_match sim original_title rest
    else
      let score := sim (clean original_title) (clean t)
      if similarity_threshold ≤ score then
        some ⟨item.doi, some t, score, false⟩
      else
        find_best_match sim original_title rest

/-- Row of the crossref_cache table, keyed externally by normalized title. -/
structure CacheEntry where
  doi : Option String
  crossref_title : Option String
  similarity_score : Nat
  deriving DecidableEq, Repr

/-- The crossref_cache table: an association list keyed by normalized
title, kept with at most one binding per key by the upsert below. -/
abbrev Cache := List (String × CacheEntry)

/-- Point lookup by primary key (SELECT ... WHERE title_normalized = ?). -/
def cache_lookup (c : Cache) (key : String) : Option CacheEntry :=
  (c.find? (fun p => p.1 == key)).map (fun p => p.2)

/-- Upsert by primary key (INSERT OR REPLACE): the previous binding for the
key, if any, is dropped and the new one takes its place. -/
def cache_upsert (c : Cache) (key : String) (e : CacheEntry) : Cache :=
  (key, e) :: c.filter (fun p => p.1 != key)

/-- Embeds get_cached_result: normalize, give up on a falsy key (none or
the empty string), otherwise look the key up and dress a hit as a
MatchResult with the from_cache flag set. -/
def get_cached_result (c : Cache) (title : Option String) : Option MatchResult :=
  match normalize_title title with
  | none => none
  | some key =>
    if key = "" then none
    else
      (cache_lookup c key).map (fun e => ⟨e.doi, e.crossref_title, e.similarity_score, true⟩)

/-- Embeds cache_result: normalize, no-op on a falsy key, otherwise upsert
the row for the key. -/
def cache_result (c : Cache) (title : Option String)
    (doi : Option String) (crossref_title : Option String) (score : Nat) : Cache :=
  match normalize_title title with
  | none => c
  | some key =>
    if key = "" then c
    else cache_upsert c key ⟨doi, crossref_title, score⟩

/-- One interaction with the external service, as seen by search_crossref:
either an HTTP response with a status and a payload (none modelling a body
whose JSON parse raises), or a transport-level failure (timeout, connection
error), which in the code surfaces as an exception caught by the bare
except clause. -/
inductive FetchResponse where
  | http (status : Nat) (payload : Option (List CrossrefItem))
  | failure
  deriving DecidableEq, Repr

/-- What a call to search_crossref produces: an optional match and the
number of seconds of backoff sleep it performed. -/
structure FetchOutcome where
  result : Option MatchResult
  slept : Nat
  deriving DecidableEq, Repr

/-- Embeds search_crossref: on status 200 parse the payload and select the
best match (a parse failure raises and is caught, giving no match); on 429
sleep one second and report no match; on any other status, or any
transport failure, report no match.  No branch escapes with an error. -/
def search_crossref (sim : String → String → Nat) (title : String)
    (resp : FetchResponse) : FetchOutcome :=
  match resp with
  | .failure => ⟨none, 0⟩
  | .http status payload =>
    if status = 200 then
      match payload with
      | none => ⟨none, 0⟩
      | some items => ⟨find_best_match sim title items, 0⟩
    else if status = 429 then ⟨none, 1⟩
    else ⟨none, 0⟩

/-- What one call to process_title produces: the per-record result, the
cache as left behind, whether an external fetch was issued, and the
backoff sleep performed. -/
structure TitleOutcome where
  result : Option MatchResult
  cache : Cache
  fetched : Bool
  slept : Nat
  deriving DecidableEq, Repr

/-- Embeds process_title: skipped titles resolve to nothing at once; a
cache hit is returned without fetching; otherwise one fetch attempt is
made and its outcome is cached - the found row on success, an explicit
no-match row (null identifier, null title, score 0) on failure. -/
def process_title (sim : String → String → Nat) (c : Cache)
    (title : Option String) (resp : FetchResponse) : TitleOutcome :=
  if should_skip_title title then ⟨none, c, false, 0⟩
  else
    match get_cached_result c title with
    | some cached => ⟨some cached, c, false, 0⟩
    | none =>
      let fo := search_crossref sim (title.getD "") resp
      match fo.result with
      | some res =>
        ⟨some res, cache_result c title res.doi res.crossref_title res.similarity_score,
          true, fo.slept⟩
      | none => ⟨none, cache_result c title none none 0, true, fo.slept⟩

/-- One input row of a batch: the production title column plus an opaque
row identity standing for every passthrough column. -/
structure InputRecord where
  title : Option String
  rowId : Nat
  deriving DecidableEq, Repr

/-- A row after batch processing: the original row plus the four
enrichment columns process_batch initializes and possibly overwrites. -/
structure EnrichedRecord where
  orig : InputRecord
  doi : Option String
  crossref_title : Option String
  similarity_score : Nat
  from_cache : Bool
  deriving DecidableEq, Repr

/-- Enrichment-column initialization performed on every row of a batch:
null identifier, null matched title, score 0, fresh provenance. -/
def defaultEnrich (r : InputRecord) : EnrichedRecord := ⟨r, none, none, 0, false⟩

/-- Positional write-back of a resolved result onto a row: the four
enrichment columns are overwritten, everything else stays. -/
def apply_result (e : EnrichedRecord) (res : MatchResult) : EnrichedRecord :=
  { e with
    doi := res.doi
    crossref_title := res.crossref_title
    similarity_score := res.similarity_score
    from_cache := res.from_cache }

/-- Valid pairs of a batch: the positions and rows whose title the skip
filter lets through, in row order. -/
def valid_pairs (recs : List InputRecord) : List (Nat × InputRecord) :=
  recs.enum.filter (fun p => !(should_skip_title p.2.title))

/-- Embeds process_batch: every row first gets the default enrichment
columns, then each valid row's resolved result - the outcome of its
process_title task, supplied here as an oracle from row position to
optional result - is written back at the row's own position; a row whose
task resolves to nothing keeps the defaults.  Writes are positional, so
completion order cannot reorder rows. -/
def process_batch (recs : List InputRecord) (oracle : Nat → Option MatchResult) :
    List EnrichedRecord :=
  (valid_pairs recs).foldl
    (fun acc p =>
      match oracle p.1 with
      | some res => acc.set p.1 (apply_result (defaultEnrich p.2) res)
      | none => acc)
    (recs.map defaultEnrich)

/-- A checkpoint file for one target size: the record count parsed from
the file name, the file's modification time, and the stored rows. -/
structure Checkpoint where
  count : Nat
  mtime : Nat
  data : List EnrichedRecord
  deriving DecidableEq, Repr

/-- Embeds get_last_checkpoint, restricted to the files of one target size
(which is what the glob pattern selects): the file with the greatest
modification time wins, the earliest such file on ties, as Python max
behaves. -/
def get_last_checkpoint (files : List Checkpoint) : Option Checkpoint :=
  files.foldl
    (fun best f =>
      match best with
      | none => some f
      | some b => if b.mtime < f.mtime then some f else some b)
    none

/-- The source dataframe as the sampling stage sees it: either it carries
the year column and is summarized by the row count of each distinct year,
or it has no year column and only its total row count matters. -/
inductive SourceData where
  | withYears (yearCounts : List Nat)
  | plain (rows : Nat)
  deriving DecidableEq, Repr

/-- Number of rows the sampling stage draws for a remaining quota: with a
year column each of the y distinct years contributes at most
remaining / y rows (integer floor division), capped by the rows that year
has, and the concatenation is down-sampled only when it exceeds the
quota; without a year column the draw is the quota capped by the table
size. -/
def sample_count (df : SourceData) (remaining : Nat) : Nat :=
  match df with
  | .withYears cs =>
    let per := remaining / cs.length
    let total := (cs.map (fun c => min c per)).sum
    if remaining < total then remaining else total
  | .plain n => min n remaining

/-- Condition under which the Python sampling stage completes without
raising: with a year column there must be at least one distinct year (the
per-year quota divides by the year count) and at least one drawn row (the
concatenation of per-year samples must be non-empty). -/
def sampling_ok (df : SourceData) (remaining : Nat) : Bool :=
  match df with
  | .withYears cs => !cs.isEmpty && decide (0 < sample_count df remaining)
  | .plain _ => true

/-- Outcome of one enrich_with_resume run: the final record set and the
number of records sent through the batch loop.  Every external fetch of a
run happens while batch-processing one of those records, so zero records
here means zero fetch calls. -/
structure RunResult where
  output : List EnrichedRecord
  fetchedRecords : Nat
  deriving DecidableEq, Repr

/-- Batch-processing phase of enrich_with_resume: compute the shortfall
against the target (returning the seed untouched when there is none),
sample that many source rows and append their enriched forms - newRecs
abstracts the rows the batches produce - to the seed. -/
def run_batches (processed : List EnrichedRecord) (df : SourceData) (target : Nat)
    (newRecs : Nat → EnrichedRecord) : RunResult :=
  let remaining := target - processed.length
  if remaining = 0 then ⟨processed, 0⟩
  else
    let m := sample_count df remaining
    ⟨processed ++ (List.range m).map newRecs, m⟩

/-- Embeds enrich_with_resume: pick the newest checkpoint; when its
recorded count is positive and its stored rows already reach the target,
return those rows truncated to the target with no batch processing at
all; when its count is positive but its rows fall short, seed the
accumulation with them and process the shortfall; otherwise start from
nothing. -/
def enrich_with_resume (files : List Checkpoint) (df : SourceData) (target : Nat)
    (newRecs : Nat → EnrichedRecord) : RunResult :=
  match get_last_checkpoint files with
  | some cp =>
    if 0 < cp.count then
      if target ≤ cp.data.length then ⟨cp.data.take target, 0⟩
      else run_batches cp.data df target newRecs
    else run_batches [] df target newRecs
  | none => run_batches [] df target newRecs

/-- Checkpoint-save events of the batch loop of enrich_with_resume.  For a
run seeded with the given rows, walking the enriched batches in order
while accumulating them, the cumulative processed count after a batch is
the seed row count plus the row counts of the batches so far; a save
fires when that count is an exact multiple of the interval or the batch
is the last of the run, and the snapshot it persists is the concatenation
of the seed with every batch accumulated so far.  An event records
(batch id, recorded count, snapshot rows). -/
def save_events (seed : List EnrichedRecord) (interval numBatches : Nat) :
    Nat → List (List EnrichedRecord) → List (List EnrichedRecord) →
      List (Nat × Nat × List EnrichedRecord)
  | _, _, [] => []
  | k, done, b :: rest =>
    let done2 := done ++ [b]
    let total := seed.length + (done2.map List.length).sum
    let here : List (Nat × Nat × List EnrichedRecord) :=
      if total % interval = 0 ∨ k = numBatches - 1 then [(k, total, seed ++ done2.flatten)]
      else []
    here ++ save_events seed interval numBatches (k + 1) done2 rest

/-- The checkpoint behaviour of one run's batch loop: its save events. -/
def batch_loop (seed : List EnrichedRecord) (batches : List (List EnrichedRecord))
    (interval : Nat) : List (Nat × Nat × List EnrichedRecord) :=
  save_events seed interval batches.length 0 [] batches

/-- A checkpoint file on storage as the retention pass sees it: the count
embedded in its name and its modification time. -/
structure CkptFile where
  count : Nat
  mtime : Nat
  deriving DecidableEq, Repr

/-- Writing the snapshot file: to_parquet replaces the file of the same
name (the name embeds the count) or creates a new one, with a fresh
modification time either way. -/
def write_file (fs : List CkptFile) (count mtime : Nat) : List CkptFile :=
  fs.filter (fun f => f.count != count) ++ [⟨count, mtime⟩]

/-- Stable insertion by modification time, ascending. -/
def insert_by_mtime (f : CkptFile) : List CkptFile → List CkptFile
  | [] => [f]
  | g :: gs => if f.mtime ≤ g.mtime then f :: g :: gs else g :: insert_by_mtime f gs

/-- Python sorted with the modification-time key (stable, ascending). -/
def sort_by_mtime : List CkptFile → List CkptFile
  | [] => []
  | f :: fs => insert_by_mtime f (sort_by_mtime fs)

/-- Retention pass of save_checkpoint: sort the files of this target size
by modification time and delete all but the last three, which are the
most recently modified ones. -/
def prune_checkpoints (fs : List CkptFile) : List CkptFile :=
  let s := sort_by_mtime fs
  s.drop (s.length - 3)

/-- File-level effect of one save_checkpoint call: write the snapshot
file, then prune the old checkpoints of this target size. -/
def save_checkpoint_files (fs : List CkptFile) (count mtime : Nat) : List CkptFile :=
  prune_checkpoints (write_file fs count mtime)

end CapesDOI

/-- C8 counterexample: a whitespace-only title is blank, yet normalize_title
returns the empty-string key rather than none, because the code tests only
pandas-missing and exact equality with the empty string before stripping. -/
theorem normalize_blank_counterexample :
    CapesDOI.normalize_title (some " ") = some "" ∧ CapesDOI.strip " " = "" := by
  decide

/-- C8 (amended): normalize_title returns none exactly for a missing input or
the exact empty string; any other input (whitespace-only included) yields the
stripped, upper-cased key truncated to at most 200 characters, the empty key
standing in for blank-after-strip inputs. -/
theorem normalize_contract :
    CapesDOI.normalize_title none = none
    ∧ (∀ t : String, CapesDOI.normalize_title (some t) = none ↔ t = "")
    ∧ (∀ t k, CapesDOI.normalize_title (some t) = some k →
        k.length ≤ 200 ∧ k.data = (CapesDOI.trimUpper t).take 200) := by
  refine ⟨rfl, fun t => ?_, fun t k h => ?_⟩
  · constructor
    · intro h
      by_contra hne
      simp [CapesDOI.normalize_title, hne] at h
    · intro h
      subst h
      rfl
  · by_cases ht : t = ""
    · simp [CapesDOI.normalize_title, ht] at h
    · simp [CapesDOI.normalize_title, ht] at h
      subst h
      refine ⟨?_, rfl⟩
      show ((CapesDOI.trimUpper t).take 200).length ≤ 200
      simp [List.length_take]

/-- Witness for the amended C8 theorem at a concrete title. -/
theorem normalize_contract_witness :
    ("ABC" : String).length ≤ 200 ∧ ("ABC" : String).data = (CapesDOI.trimUpper "  abc  ").take 200 :=
  normalize_contract.2.2 "  abc  " "ABC" (by decide)

/-- C9 counterexample: the title "ab\ncd" strips to itself, has length 5 < 6,
yet should_skip_title returns false: the short-title regex uses the dot,
which never matches a newline, so the five-character string containing a
newline escapes the filter (and every other skip rule). -/
theorem skip_short_counterexample :
    CapesDOI.should_skip_title (some "ab\ncd") = false
    ∧ (CapesDOI.strip "ab\ncd").length < 6 := by
  decide

/-- C9 (amended): every title whose stripped form is shorter than 6
characters and contains no newline is skipped (blank titles via the blank
check, the rest via the short-title pattern). -/
theorem skip_short_titles (t : String)
    (hlen : (CapesDOI.strip t).length < 6)
    (hnl : '\n' ∉ (CapesDOI.strip t).data) :
    CapesDOI.should_skip_title (some t) = true := by
  rw [CapesDOI.should_skip_title]
  by_cases h : CapesDOI.strip t = ""
  · simp [h]
  · have hshort : CapesDOI.pat_short (CapesDOI.strip t) = true := by
      unfold CapesDOI.pat_short
      simp [Nat.lt_succ_iff.mp hlen, hnl]
    simp [h, hshort]

/-- Witness for the amended C9 theorem at a concrete short title. -/
theorem skip_short_titles_witness :
    CapesDOI.should_skip_title (some "abc") = true :=
  skip_short_titles "abc" (by decide) (by decide)

namespace CapesDOI

lemma string_eq_empty_iff (s : String) : s = "" ↔ s.data = [] := by
  constructor
  · intro h
    subst h
    rfl
  · intro h
    cases s with
    | mk d =>
      have hd : d = [] := h
      subst hd
      decide

lemma take_ne_nil_of_ne_nil {α : Type} (l : List α) (n : Nat) (h : l ≠ []) (hn : n ≠ 0) :
    l.take n ≠ [] := by
  cases l with
  | nil => exact absurd rfl h
  | cons a t =>
    cases n with
    | zero => exact absurd rfl hn
    | succ m => simp

lemma strip_ne_of_not_skip (t : String) (h : should_skip_title (some t) = false) :
    strip t ≠ "" := by
  intro hs
  rw [should_skip_title] at h
  simp [hs] at h

lemma normalize_of_valid (t : String) (h : strip t ≠ "") :
    normalize_title (some t) = some ⟨(trimUpper t).take 200⟩
    ∧ (⟨(trimUpper t).take 200⟩ : String) ≠ "" := by
  have ht : t ≠ "" := by
    intro he
    subst he
    exact h rfl
  have hdata : (strip t).data ≠ [] := by
    intro hd
    exact h ((string_eq_empty_iff _).mpr hd)
  have htu : trimUpper t ≠ [] := by
    unfold trimUpper
    simp [hdata]
  constructor
  · simp [normalize_title, ht]
  · intro he
    exact take_ne_nil_of_ne_nil _ 200 htu (by decide) ((string_eq_empty_iff _).mp he)

lemma fbm_none_iff (sim : String → String → Nat) (src : String) (items : List CrossrefItem) :
    find_best_match sim src items = none ↔
      ∀ item ∈ items, extractTitle item = ""
        ∨ sim (clean src) (clean (extractTitle item)) < similarity_threshold := by
  induction items with
  | nil => simp [find_best_match]
  | cons item rest ih =>
    rw [find_best_match]
    by_cases ht : extractTitle item = ""
    · simp [ht, ih]
    · by_cases hs : similarity_threshold ≤ sim (clean src) (clean (extractTitle item))
      · have hnlt : ¬ sim (clean src) (clean (extractTitle item)) < similarity_threshold := by
          omega
        simp [ht, hs, hnlt]
      · have hlt : sim (clean src) (clean (extractTitle item)) < similarity_threshold := by
          omega
        simp [ht, hs, ih, hlt]

lemma fbm_some (sim : String → String → Nat) (src : String) (items : List CrossrefItem)
    (res : MatchResult) (h : find_best_match sim src items = some res) :
    ∃ i : Nat, ∃ item : CrossrefItem, items[i]? = some item ∧ extractTitle item ≠ ""
      ∧ similarity_threshold ≤ sim (clean src) (clean (extractTitle item))
      ∧ res = ⟨item.doi, some (extractTitle item),
          sim (clean src) (clean (extractTitle item)), false⟩
      ∧ ∀ (j : Nat) (itj : CrossrefItem), j < i → items[j]? = some itj →
          extractTitle itj = ""
          ∨ sim (clean src) (clean (extractTitle itj)) < similarity_threshold := by
  induction items with
  | nil => simp [find_best_match] at h
  | cons item rest ih =>
    by_cases ht : extractTitle item = ""
    · have hfbm : find_best_match sim src (item :: rest) = find_best_match sim src rest := by
        rw [find_best_match]
        simp [ht]
      rw [hfbm] at h
      obtain ⟨i, it2, hget, hne, hsc, hres, hbefore⟩ := ih h
      refine ⟨i + 1, it2, by simpa using hget, hne, hsc, hres, ?_⟩
      intro j itj hj hgj
      cases j with
      | zero =>
        simp at hgj
        subst hgj
        exact Or.inl ht
      | succ k =>
        simp at hgj
        exact hbefore k itj (Nat.lt_of_succ_lt_succ hj) hgj
    · by_cases hs : similarity_threshold ≤ sim (clean src) (clean (extractTitle item))
      · have hfbm : find_best_match sim src (item :: rest) =
            some ⟨item.doi, some (extractTitle item),
              sim (clean src) (clean (extractTitle item)), false⟩ := by
          rw [find_best_match]
          simp [ht, hs]
        rw [hfbm] at h
        refine ⟨0, item, by simp, ht, hs, (Option.some.inj h).symm, ?_⟩
        intro j itj hj _
        exact absurd hj (Nat.not_lt_zero j)
      · have hfbm : find_best_match sim src (item :: rest) = find_best_match sim src rest := by
          rw [find_best_match]
          simp [ht, hs]
        rw [hfbm] at h
        obtain ⟨i, it2, hget, hne, hsc, hres, hbefore⟩ := ih h
        refine ⟨i + 1, it2, by simpa using hget, hne, hsc, hres, ?_⟩
        intro j itj hj hgj
        cases j with
        | zero =>
          simp at hgj
          subst hgj
          exact Or.inr (by omega)
        | succ k =>
          simp at hgj
          exact hbefore k itj (Nat.lt_of_succ_lt_succ hj) hgj

end CapesDOI

/-- C7: find_best_match returns none on an empty candidate list; otherwise
it returns none or the first candidate in input order whose similarity
score against the source title meets the threshold 90, never skipping an
earlier candidate that scores at or above 90; it returns none when no
candidate meets the threshold and when the source title is empty.  The
scorer is the external rapidfuzz library; the hypothesis records the
spec's reading of it, that a comparison in which either cleaned side is
blank never reaches the threshold. -/
theorem selector_first_above_threshold (sim : String → String → Nat) (src : String)
    (items : List CapesDOI.CrossrefItem)
    (hblank : ∀ a b : String, a = "" ∨ b = "" →
      sim a b < CapesDOI.similarity_threshold) :
    (items = [] → CapesDOI.find_best_match sim src items = none)
    ∧ (CapesDOI.find_best_match sim src items = none ∨
        ∃ i : Nat, ∃ item : CapesDOI.CrossrefItem, items[i]? = some item
          ∧ CapesDOI.find_best_match sim src items =
              some ⟨item.doi, some (CapesDOI.extractTitle item),
                sim (CapesDOI.clean src) (CapesDOI.clean (CapesDOI.extractTitle item)), false⟩
          ∧ CapesDOI.similarity_threshold ≤
              sim (CapesDOI.clean src) (CapesDOI.clean (CapesDOI.extractTitle item))
          ∧ ∀ (j : Nat) (itj : CapesDOI.CrossrefItem), j < i → items[j]? = some itj →
              sim (CapesDOI.clean src) (CapesDOI.clean (CapesDOI.extractTitle itj))
                < CapesDOI.similarity_threshold)
    ∧ ((∀ item ∈ items,
          sim (CapesDOI.clean src) (CapesDOI.clean (CapesDOI.extractTitle item))
            < CapesDOI.similarity_threshold) →
        CapesDOI.find_best_match sim src items = none)
    ∧ (src = "" → CapesDOI.find_best_match sim src items = none) := by
  refine ⟨?_, ?_, ?_, ?_⟩
  · intro h
    subst h
    rfl
  · cases hres : CapesDOI.find_best_match sim src items with
    | none => exact Or.inl rfl
    | some res =>
      refine Or.inr ?_
      obtain ⟨i, item, hget, hne, hsc, hresEq, hbefore⟩ :=
        CapesDOI.fbm_some sim src items res hres
      refine ⟨i, item, hget, congrArg some hresEq, hsc, ?_⟩
      intro j itj hj hgj
      rcases hbefore j itj hj hgj with hblank2 | hlt
      · have hce : CapesDOI.clean (CapesDOI.extractTitle itj) = "" := by
          rw [hblank2]
          decide
        rw [hce]
        exact hblank _ _ (Or.inr rfl)
      · exact hlt
  · intro hall
    rw [CapesDOI.fbm_none_iff]
    intro item hmem
    exact Or.inr (hall item hmem)
  · intro hsrc
    subst hsrc
    rw [CapesDOI.fbm_none_iff]
    intro item _
    refine Or.inr ?_
    have hcl : CapesDOI.clean "" = "" := rfl
    rw [hcl]
    exact hblank _ _ (Or.inl rfl)

/-- Witness for the C7 theorem at a concrete scorer and candidate list:
an empty source title selects nothing. -/
theorem selector_first_above_threshold_witness :
    CapesDOI.find_best_match (fun _ _ => 0) "" [⟨some "10.1/x", some ["SOMETHING"]⟩] = none :=
  (selector_first_above_threshold (fun _ _ => 0) "" [⟨some "10.1/x", some ["SOMETHING"]⟩]
    (fun _ _ _ => Nat.succ_pos 89)).2.2.2 rfl

/-- C10 (implicit): find_best_match never selects a candidate whose
extracted title is empty - such a candidate is stepped over no matter its
position or score, so it never shadows a later qualifying candidate - and
any returned match therefore carries a non-empty matched title. -/
theorem selector_skips_blank_candidates (sim : String → String → Nat) (src : String) :
    (∀ (item : CapesDOI.CrossrefItem) (rest : List CapesDOI.CrossrefItem),
        CapesDOI.extractTitle item = "" →
        CapesDOI.find_best_match sim src (item :: rest)
          = CapesDOI.find_best_match sim src rest)
    ∧ (∀ (items : List CapesDOI.CrossrefItem) (res : CapesDOI.MatchResult),
        CapesDOI.find_best_match sim src items = some res →
        ∃ mt, res.crossref_title = some mt ∧ mt ≠ "") := by
  constructor
  · intro item rest ht
    rw [CapesDOI.find_best_match]
    simp [ht]
  · intro items res h
    obtain ⟨i, item, hget, hne, hsc, hresEq, hbefore⟩ :=
      CapesDOI.fbm_some sim src items res h
    exact ⟨CapesDOI.extractTitle item, by rw [hresEq], hne⟩

/-- Witness for the C10 theorem: a blank-titled first candidate is skipped
in favour of the rest of the list. -/
theorem selector_skips_blank_candidates_witness :
    CapesDOI.find_best_match (fun _ _ => 100) "some title"
        (⟨none, some [""]⟩ :: [⟨some "10.1/x", some ["SOME TITLE"]⟩])
      = CapesDOI.find_best_match (fun _ _ => 100) "some title"
          [⟨some "10.1/x", some ["SOME TITLE"]⟩] :=
  (selector_skips_blank_candidates (fun _ _ => 100) "some title").1
    ⟨none, some [""]⟩ [⟨some "10.1/x", some ["SOME TITLE"]⟩] (by decide)

namespace CapesDOI

lemma cache_upsert_lookup (c : Cache) (key : String) (e : CacheEntry) :
    cache_lookup (cache_upsert c key e) key = some e := by
  unfold cache_lookup cache_upsert
  simp

lemma process_title_hit (sim : String → String → Nat) (c : Cache) (title : Option String)
    (resp : FetchResponse) (res : MatchResult)
    (hns : should_skip_title title = false)
    (hhit : get_cached_result c title = some res) :
    process_title sim c title resp = ⟨some res, c, false, 0⟩ := by
  simp [process_title, hns, hhit]

lemma process_title_miss_none (sim : String → String → Nat) (c : Cache)
    (title : Option String) (resp : FetchResponse)
    (hns : should_skip_title title = false)
    (hmiss : get_cached_result c title = none)
    (hnone : (search_crossref sim (title.getD "") resp).result = none) :
    process_title sim c title resp
      = ⟨none, cache_result c title none none 0, true,
          (search_crossref sim (title.getD "") resp).slept⟩ := by
  simp [process_title, hns, hmiss, hnone]

end CapesDOI

/-- C3: a fetch attempt on a valid, uncached title never escapes with an
error - HTTP 429 yields one second of backoff sleep and no match, any
other non-200 status, transport failure or malformed payload yields no
match with no sleep - and after an attempt that yields no match the cache
holds an explicit no-match row (null identifier, null title, score 0)
under the title's normalized key, so a repeat of the same title is served
from cache without fetching. -/
theorem fetch_absorbs_errors_and_caches_no_match (sim : String → String → Nat)
    (c : CapesDOI.Cache) (t : String) (resp : CapesDOI.FetchResponse)
    (hvalid : CapesDOI.should_skip_title (some t) = false)
    (hmiss : CapesDOI.get_cached_result c (some t) = none) :
    (∀ p, CapesDOI.search_crossref sim t (.http 429 p) = ⟨none, 1⟩)
    ∧ (∀ (st : Nat) (p : Option (List CapesDOI.CrossrefItem)), st ≠ 200 → st ≠ 429 →
        CapesDOI.search_crossref sim t (.http st p) = ⟨none, 0⟩)
    ∧ CapesDOI.search_crossref sim t .failure = ⟨none, 0⟩
    ∧ CapesDOI.search_crossref sim t (.http 200 none) = ⟨none, 0⟩
    ∧ ((CapesDOI.search_crossref sim t resp).result = none →
        CapesDOI.normalize_title (some t) = some ⟨(CapesDOI.trimUpper t).take 200⟩
        ∧ (⟨(CapesDOI.trimUpper t).take 200⟩ : String) ≠ ""
        ∧ (CapesDOI.process_title sim c (some t) resp).fetched = true
        ∧ CapesDOI.cache_lookup (CapesDOI.process_title sim c (some t) resp).cache
            ⟨(CapesDOI.trimUpper t).take 200⟩ = some ⟨none, none, 0⟩)
    ∧ ((CapesDOI.search_crossref sim t resp).result = none →
        ∀ resp',
          (CapesDOI.process_title sim
              (CapesDOI.process_title sim c (some t) resp).cache (some t) resp').fetched = false
          ∧ (CapesDOI.process_title sim
              (CapesDOI.process_title sim c (some t) resp).cache (some t) resp').result
            = some ⟨none, none, 0, true⟩) := by
  obtain ⟨hnorm, hkey⟩ :=
    CapesDOI.normalize_of_valid t (CapesDOI.strip_ne_of_not_skip t hvalid)
  have hc2 : (CapesDOI.search_crossref sim t resp).result = none →
      (CapesDOI.process_title sim c (some t) resp).cache
        = CapesDOI.cache_upsert c ⟨(CapesDOI.trimUpper t).take 200⟩ ⟨none, none, 0⟩ := by
    intro hnone
    rw [CapesDOI.process_title_miss_none sim c (some t) resp hvalid hmiss (by simpa using hnone)]
    show CapesDOI.cache_result c (some t) none none 0 = _
    unfold CapesDOI.cache_result
    rw [hnorm]
    simp [hkey]
  refine ⟨fun p => rfl, ?_, rfl, rfl, ?_, ?_⟩
  · intro st p h200 h429
    simp only [CapesDOI.search_crossref]
    rw [if_neg h200, if_neg h429]
  · intro hnone
    refine ⟨hnorm, hkey, ?_, ?_⟩
    · rw [CapesDOI.process_title_miss_none sim c (some t) resp hvalid hmiss
        (by simpa using hnone)]
    · rw [hc2 hnone]
      exact CapesDOI.cache_upsert_lookup c _ _
  · intro hnone resp'
    have hhit : CapesDOI.get_cached_result
        (CapesDOI.process_title sim c (some t) resp).cache (some t)
        = some ⟨none, none, 0, true⟩ := by
      unfold CapesDOI.get_cached_result
      rw [hnorm, hc2 hnone]
      simp [hkey, CapesDOI.cache_upsert_lookup]
    rw [CapesDOI.process_title_hit sim _ (some t) resp' _ hvalid hhit]
    exact ⟨rfl, rfl⟩

/-- Witness for the C3 theorem: a transport failure on a fresh valid title
is absorbed as no match. -/
theorem fetch_absorbs_errors_witness :
    CapesDOI.search_crossref (fun _ _ => 0) "a perfectly fine title" .failure = ⟨none, 0⟩ :=
  (fetch_absorbs_errors_and_caches_no_match (fun _ _ => 0) [] "a perfectly fine title"
    .failure (by decide) (by decide)).2.2.1

namespace CapesDOI

/-- One step of the process_batch write-back fold with the valid-pair
filter folded into a guard; proof machinery only. -/
def enrich_step (oracle : Nat → Option MatchResult) (acc : List EnrichedRecord)
    (p : Nat × InputRecord) : List EnrichedRecord :=
  if !(should_skip_title p.2.title) then
    match oracle p.1 with
    | some res => acc.set p.1 (apply_result (defaultEnrich p.2) res)
    | none => acc
  else acc

lemma foldl_filter {α β : Type} (q : α → Bool) (f : β → α → β) :
    ∀ (l : List α) (b : β),
      (l.filter q).foldl f b = l.foldl (fun acc x => if q x then f acc x else acc) b := by
  intro l
  induction l with
  | nil => intro b; rfl
  | cons a t ih =>
    intro b
    by_cases h : q a <;> simp [List.filter_cons, h, ih]

lemma process_batch_eq_fold (recs : List InputRecord) (oracle : Nat → Option MatchResult) :
    process_batch recs oracle
      = (List.enumFrom 0 recs).foldl (enrich_step oracle) (recs.map defaultEnrich) := by
  unfold process_batch valid_pairs enrich_step
  exact foldl_filter _ _ _ _

lemma enrich_step_length (oracle : Nat → Option MatchResult) (acc : List EnrichedRecord)
    (p : Nat × InputRecord) : (enrich_step oracle acc p).length = acc.length := by
  cases ho : oracle p.1 <;> by_cases hs : should_skip_title p.2.title <;>
    simp [enrich_step, ho, hs]

lemma fold_enum_length (oracle : Nat → Option MatchResult) :
    ∀ (recs : List InputRecord) (k : Nat) (init : List EnrichedRecord),
      ((List.enumFrom k recs).foldl (enrich_step oracle) init).length = init.length := by
  intro recs
  induction recs with
  | nil => intro k init; rfl
  | cons r rest ih =>
    intro k init
    show ((List.enumFrom (k + 1) rest).foldl (enrich_step oracle)
        (enrich_step oracle init (k, r))).length = _
    rw [ih, enrich_step_length]

lemma fold_enum_lt (oracle : Nat → Option MatchResult) :
    ∀ (recs : List InputRecord) (k : Nat) (init : List EnrichedRecord) (j : Nat), j < k →
      ((List.enumFrom k recs).foldl (enrich_step oracle) init)[j]? = init[j]? := by
  intro recs
  induction recs with
  | nil => intro k init j hj; rfl
  | cons r rest ih =>
    intro k init j hj
    show ((List.enumFrom (k + 1) rest).foldl (enrich_step oracle)
        (enrich_step oracle init (k, r)))[j]? = _
    rw [ih (k + 1) _ j (by omega)]
    have hne : k ≠ j := by omega
    cases ho : oracle k <;> by_cases hs : should_skip_title r.title <;>
      simp [enrich_step, ho, hs, List.getElem?_set_ne hne]

lemma fold_enum_at (oracle : Nat → Option MatchResult) :
    ∀ (recs : List InputRecord) (k : Nat) (init : List EnrichedRecord),
      init.length = k + recs.length →
      ∀ (i : Nat) (r : InputRecord), recs[i]? = some r →
        ((List.enumFrom k recs).foldl (enrich_step oracle) init)[k + i]? =
          if should_skip_title r.title then init[k + i]?
          else
            match oracle (k + i) with
            | some res => some (apply_result (defaultEnrich r) res)
            | none => init[k + i]? := by
  intro recs
  induction recs with
  | nil =>
    intro k init hinit i r h
    simp at h
  | cons r0 rest ih =>
    intro k init hinit i r h
    show ((List.enumFrom (k + 1) rest).foldl (enrich_step oracle)
        (enrich_step oracle init (k, r0)))[k + i]? = _
    cases i with
    | zero =>
      simp only [List.getElem?_cons_zero, Option.some.injEq] at h
      subst h
      simp only [Nat.add_zero]
      rw [fold_enum_lt oracle rest (k + 1) _ k (by omega)]
      have hk : k < init.length := by
        simp at hinit
        omega
      by_cases hs : should_skip_title r0.title
      · simp [enrich_step, hs]
      · cases ho : oracle k with
        | none => simp [enrich_step, hs, ho]
        | some res => simp [enrich_step, hs, ho, List.getElem?_set_self, hk]
    | succ i2 =>
      simp only [List.getElem?_cons_succ] at h
      have hlen2 : (enrich_step oracle init (k, r0)).length = (k + 1) + rest.length := by
        rw [enrich_step_length]
        simp at hinit
        omega
      have hstep := ih (k + 1) (enrich_step oracle init (k, r0)) hlen2 i2 r h
      have hne : k ≠ (k + 1) + i2 := by omega
      have hinit2 : (enrich_step oracle init (k, r0))[(k + 1) + i2]? = init[(k + 1) + i2]? := by
        cases ho0 : oracle k <;> by_cases hs0 : should_skip_title r0.title <;>
          simp [enrich_step, ho0, hs0, List.getElem?_set_ne hne]
      rw [hinit2] at hstep
      have harith : k + (i2 + 1) = (k + 1) + i2 := by omega
      rw [harith, hstep]

end CapesDOI

/-- C2: process_batch on a batch of B rows returns exactly B enriched
rows, the row at each position derived from the input row at the very
same position (so output row order matches input row order, writes being
positional), and every returned row carries all four enrichment fields:
the defaults (null identifier, null matched title, score 0, fresh
provenance) for a skipped row or one whose task resolved to nothing, and
the resolved result's fields otherwise. -/
theorem batch_completeness (recs : List CapesDOI.InputRecord)
    (oracle : Nat → Option CapesDOI.MatchResult) :
    (CapesDOI.process_batch recs oracle).length = recs.length
    ∧ ∀ (i : Nat) (r : CapesDOI.InputRecord), recs[i]? = some r →
        (CapesDOI.process_batch recs oracle)[i]? =
          some (if CapesDOI.should_skip_title r.title then CapesDOI.defaultEnrich r
                else
                  match oracle i with
                  | some res => CapesDOI.apply_result (CapesDOI.defaultEnrich r) res
                  | none => CapesDOI.defaultEnrich r) := by
  constructor
  · rw [CapesDOI.process_batch_eq_fold, CapesDOI.fold_enum_length]
    simp
  · intro i r h
    have hlen : (recs.map CapesDOI.defaultEnrich).length = 0 + recs.length := by simp
    have hchar := CapesDOI.fold_enum_at oracle recs 0 (recs.map CapesDOI.defaultEnrich) hlen i r h
    have hmap : (recs.map CapesDOI.defaultEnrich)[0 + i]? = some (CapesDOI.defaultEnrich r) := by
      simp [h]
    rw [hmap] at hchar
    rw [CapesDOI.process_batch_eq_fold]
    have hzero : (0 : Nat) + i = i := by omega
    rw [hzero] at hchar
    rw [hchar]
    by_cases hs : CapesDOI.should_skip_title r.title
    · simp [hs]
    · cases ho : oracle i <;> simp [hs, ho]

/-- Witness for the C2 theorem on a concrete one-row batch whose task
resolves to nothing. -/
theorem batch_completeness_witness :
    (CapesDOI.process_batch [⟨some "a sufficiently long title", 0⟩] (fun _ => none)).length = 1
    ∧ (CapesDOI.process_batch [⟨some "a sufficiently long title", 0⟩] (fun _ => none))[0]?
        = some (CapesDOI.defaultEnrich ⟨some "a sufficiently long title", 0⟩) := by
  refine ⟨(batch_completeness [⟨some "a sufficiently long title", 0⟩] (fun _ => none)).1, ?_⟩
  rw [(batch_completeness [⟨some "a sufficiently long title", 0⟩] (fun _ => none)).2 0
    ⟨some "a sufficiently long title", 0⟩ (by decide)]
  decide

namespace CapesDOI

lemma sample_count_le (df : SourceData) (r : Nat) : sample_count df r ≤ r := by
  cases df with
  | plain n => simp [sample_count]
  | withYears cs =>
    simp only [sample_count]
    split <;> omega

end CapesDOI

/-- C1 counterexample: get_last_checkpoint selects by modification time,
not by greatest recorded count.  Storage holds a checkpoint of count 10
(enough for target 5) and a more recently modified one of count 3; the
run resumes from the newer, smaller checkpoint and still fetches 2
records, refuting the zero-fetch conclusion of the claim as stated. -/
theorem resume_mtime_counterexample :
    (∃ cp ∈ ([⟨10, 1, List.replicate 10 (CapesDOI.defaultEnrich ⟨none, 0⟩)⟩,
        ⟨3, 2, List.replicate 3 (CapesDOI.defaultEnrich ⟨none, 0⟩)⟩] :
          List CapesDOI.Checkpoint),
      5 ≤ cp.count ∧ 0 < cp.count ∧ cp.data.length = cp.count)
    ∧ (CapesDOI.enrich_with_resume
        [⟨10, 1, List.replicate 10 (CapesDOI.defaultEnrich ⟨none, 0⟩)⟩,
          ⟨3, 2, List.replicate 3 (CapesDOI.defaultEnrich ⟨none, 0⟩)⟩]
        (.plain 2) 5 (fun i => CapesDOI.defaultEnrich ⟨none, i⟩)).fetchedRecords = 2 := by
  decide

/-- C1 (amended): when the checkpoint that get_last_checkpoint selects -
the most recently modified one for this target size - has a positive
recorded count C, stores C rows, and C meets or exceeds the target, the
run performs zero batch processing (hence zero external fetch calls) and
returns exactly the first target rows of that checkpoint. -/
theorem resume_zero_fetch (files : List CapesDOI.Checkpoint) (df : CapesDOI.SourceData)
    (target : Nat) (newRecs : Nat → CapesDOI.EnrichedRecord) (cp : CapesDOI.Checkpoint)
    (hsel : CapesDOI.get_last_checkpoint files = some cp)
    (hpos : 0 < cp.count)
    (hcl : cp.data.length = cp.count)
    (hge : target ≤ cp.count) :
    (CapesDOI.enrich_with_resume files df target newRecs).fetchedRecords = 0
    ∧ (CapesDOI.enrich_with_resume files df target newRecs).output = cp.data.take target
    ∧ (CapesDOI.enrich_with_resume files df target newRecs).output.length = target := by
  have hred : CapesDOI.enrich_with_resume files df target newRecs
      = ⟨cp.data.take target, 0⟩ := by
    unfold CapesDOI.enrich_with_resume
    simp only [hsel]
    rw [if_pos hpos, if_pos (by omega : target ≤ cp.data.length)]
  rw [hred]
  refine ⟨rfl, rfl, ?_⟩
  simp only [List.length_take]
  omega

/-- Witness for the amended C1 theorem on a concrete checkpoint store. -/
theorem resume_zero_fetch_witness :
    (CapesDOI.enrich_with_resume
      [⟨5, 1, List.replicate 5 (CapesDOI.defaultEnrich ⟨none, 0⟩)⟩]
      (.plain 0) 3 (fun i => CapesDOI.defaultEnrich ⟨none, i⟩)).fetchedRecords = 0 :=
  (resume_zero_fetch _ _ _ _ ⟨5, 1, List.replicate 5 (CapesDOI.defaultEnrich ⟨none, 0⟩)⟩
    (by decide) (by decide) (by decide) (by decide)).1

/-- C5 counterexample: a checkpoint seeds C = 1 row toward target T = 101,
so the claim demands exactly T - C = 100 additionally processed records
and a final output of 101; but the stratified sampler allocates
100 / 3 = 33 rows to each of three years, drawing 99 records and
finishing with 100 - one short of the target. -/
theorem resume_shortfall_counterexample :
    CapesDOI.get_last_checkpoint [⟨1, 0, [CapesDOI.defaultEnrich ⟨none, 0⟩]⟩]
        = some ⟨1, 0, [CapesDOI.defaultEnrich ⟨none, 0⟩]⟩
    ∧ (CapesDOI.enrich_with_resume [⟨1, 0, [CapesDOI.defaultEnrich ⟨none, 0⟩]⟩]
        (.withYears [50, 50, 50]) 101 (fun i => CapesDOI.defaultEnrich ⟨none, i⟩)).fetchedRecords
        = 99
    ∧ (CapesDOI.enrich_with_resume [⟨1, 0, [CapesDOI.defaultEnrich ⟨none, 0⟩]⟩]
        (.withYears [50, 50, 50]) 101 (fun i => CapesDOI.defaultEnrich ⟨none, i⟩)).output.length
        = 100
    ∧ 101 - 1 = 100 := by
  decide

/-- C5 (amended): a run resuming from the selected checkpoint with
0 < C < T rows seeds its accumulation with exactly those rows and then
processes sample_count df (T - C) further records - at most T - C, with
equality only when the sampling allocation adds up - so the completed
output is the checkpoint rows followed by the new ones, C + processed
records in total (and possibly fewer than T). -/
theorem resume_shortfall (files : List CapesDOI.Checkpoint) (df : CapesDOI.SourceData)
    (target : Nat) (newRecs : Nat → CapesDOI.EnrichedRecord) (cp : CapesDOI.Checkpoint)
    (C : Nat)
    (hsel : CapesDOI.get_last_checkpoint files = some cp)
    (hpos : 0 < cp.count)
    (hC : cp.data.length = C)
    (hlt : C < target)
    (hok : CapesDOI.sampling_ok df (target - C) = true) :
    (CapesDOI.enrich_with_resume files df target newRecs).output
        = cp.data ++ (List.range (CapesDOI.sample_count df (target - C))).map newRecs
    ∧ (CapesDOI.enrich_with_resume files df target newRecs).fetchedRecords
        = CapesDOI.sample_count df (target - C)
    ∧ (CapesDOI.enrich_with_resume files df target newRecs).fetchedRecords ≤ target - C
    ∧ (CapesDOI.enrich_with_resume files df target newRecs).output.length
        = C + (CapesDOI.enrich_with_resume files df target newRecs).fetchedRecords := by
  have hred : CapesDOI.enrich_with_resume files df target newRecs
      = CapesDOI.run_batches cp.data df target newRecs := by
    unfold CapesDOI.enrich_with_resume
    simp only [hsel]
    rw [if_pos hpos, if_neg (by omega : ¬ target ≤ cp.data.length)]
  have hrb : CapesDOI.run_batches cp.data df target newRecs
      = ⟨cp.data ++ (List.range (CapesDOI.sample_count df (target - C))).map newRecs,
          CapesDOI.sample_count df (target - C)⟩ := by
    unfold CapesDOI.run_batches
    rw [hC, if_neg (by omega : ¬ (target - C = 0))]
  rw [hred, hrb]
  refine ⟨rfl, rfl, CapesDOI.sample_count_le df _, ?_⟩
  simp [hC]

/-- Witness for the amended C5 theorem: a 2-row checkpoint toward target
5 over an unstratified source, which draws exactly the 3-row shortfall. -/
theorem resume_shortfall_witness :
    (CapesDOI.enrich_with_resume [⟨2, 1, List.replicate 2 (CapesDOI.defaultEnrich ⟨none, 0⟩)⟩]
      (.plain 10) 5 (fun i => CapesDOI.defaultEnrich ⟨none, i⟩)).fetchedRecords ≤ 5 - 2 :=
  (resume_shortfall _ _ _ _ ⟨2, 1, List.replicate 2 (CapesDOI.defaultEnrich ⟨none, 0⟩)⟩ 2
    (by decide) (by decide) (by decide) (by decide) (by decide)).2.2.1

namespace CapesDOI

lemma save_events_mem (seed : List EnrichedRecord) (I n : Nat) :
    ∀ (rest done : List (List EnrichedRecord)) (k : Nat) (e : Nat × Nat × List EnrichedRecord),
      e ∈ save_events seed I n k done rest ↔
        ∃ i : Nat, i < rest.length ∧ e.1 = k + i
          ∧ e.2.1 = seed.length + ((done ++ rest.take (i + 1)).map List.length).sum
          ∧ e.2.2 = seed ++ (done ++ rest.take (i + 1)).flatten
          ∧ (e.2.1 % I = 0 ∨ e.1 = n - 1) := by
  intro rest
  induction rest with
  | nil =>
    intro done k e
    simp [save_events]
  | cons b rest2 ih =>
    intro done k e
    rw [save_events]
    have htake : ∀ i : Nat, done ++ (b :: rest2).take (i + 1 + 1)
        = (done ++ [b]) ++ rest2.take (i + 1) := by
      intro i
      simp [List.take_succ_cons]
    constructor
    · intro hmem
      rcases List.mem_append.mp hmem with hin | hin
      · by_cases hc : (seed.length + ((done ++ [b]).map List.length).sum) % I = 0 ∨ k = n - 1
        · rw [if_pos hc] at hin
          simp only [List.mem_singleton] at hin
          subst hin
          refine ⟨0, by simp, by simp, by simp, by simp, by simpa using hc⟩
        · rw [if_neg hc] at hin
          simp at hin
      · obtain ⟨i, hi, h1, h2, h3, h4⟩ := (ih (done ++ [b]) (k + 1) e).mp hin
        refine ⟨i + 1, by simp; omega, by omega, ?_, ?_, h4⟩
        · rw [htake i]
          exact h2
        · rw [htake i]
          exact h3
    · rintro ⟨i, hi, h1, h2, h3, h4⟩
      cases i with
      | zero =>
        apply List.mem_append.mpr
        left
        have hc : (seed.length + ((done ++ [b]).map List.length).sum) % I = 0 ∨ k = n - 1 := by
          simp only [List.take_succ_cons, List.take_zero] at h2
          rcases h4 with h4a | h4b
          · left
            rw [← h2]
            exact h4a
          · right
            omega
        rw [if_pos hc]
        simp only [List.mem_singleton]
        have he1 : e.1 = k := by omega
        apply Prod.ext
        · simp [he1]
        · apply Prod.ext
          · simp only [List.take_succ_cons, List.take_zero] at h2
            simpa using h2
          · simp only [List.take_succ_cons, List.take_zero] at h3
            simpa using h3
      | succ i2 =>
        apply List.mem_append.mpr
        right
        apply (ih (done ++ [b]) (k + 1) e).mpr
        refine ⟨i2, by simp at hi; omega, by omega, ?_, ?_, h4⟩
        · rw [← htake i2]
          exact h2
        · rw [← htake i2]
          exact h3

end CapesDOI

set_option maxRecDepth 16000 in
/-- C4 counterexample: a run seeded with 150 rows processing six batches
of 200 rows reaches cumulative count 1150 after its fifth batch (id 4),
crossing the 1000-record interval boundary with no save yet performed,
but the code saves only at the final batch (id 5): its trigger is
divisibility of the count by the interval, not boundary crossing, so the
claim's if-and-only-if fails at batch 4. -/
theorem checkpoint_trigger_counterexample :
    ((CapesDOI.batch_loop
        (List.replicate 150 (CapesDOI.defaultEnrich ⟨none, 0⟩))
        (List.replicate 6 (List.replicate 200 (CapesDOI.defaultEnrich ⟨none, 0⟩)))
        1000).map (fun e => e.1)) = [5]
    ∧ 150 + (((List.replicate 6 (List.replicate 200 (CapesDOI.defaultEnrich ⟨none, 0⟩))).take
        5).map List.length).sum = 1150
    ∧ 150 / 1000 < 1150 / 1000
    ∧ (4 : Nat) ≠ 6 - 1 := by
  decide

/-- C4 (amended): after each batch of a run, a checkpoint save fires if
and only if the cumulative processed count - seed rows plus the rows of
every batch so far - is an exact multiple of the checkpoint interval or
the batch is the last of the run; every save records that cumulative
count and persists the full accumulated record set, whose row count
equals the recorded count. -/
theorem checkpoint_save_trigger (seed : List CapesDOI.EnrichedRecord)
    (batches : List (List CapesDOI.EnrichedRecord)) (I : Nat) :
    (∀ k : Nat, k < batches.length →
      ((∃ t s, (k, t, s) ∈ CapesDOI.batch_loop seed batches I) ↔
        ((seed.length + ((batches.take (k + 1)).map List.length).sum) % I = 0
          ∨ k = batches.length - 1)))
    ∧ ∀ (k t : Nat) (s : List CapesDOI.EnrichedRecord),
        (k, t, s) ∈ CapesDOI.batch_loop seed batches I →
          t = seed.length + ((batches.take (k + 1)).map List.length).sum
          ∧ s = seed ++ (batches.take (k + 1)).flatten
          ∧ s.length = t := by
  constructor
  · intro k hk
    constructor
    · rintro ⟨t, s, hmem⟩
      obtain ⟨i, hi, h1, h2, h3, h4⟩ :=
        (CapesDOI.save_events_mem seed I batches.length batches [] 0 (k, t, s)).mp hmem
      simp only [List.nil_append] at h2 h4
      have hik : i = k := by simpa using h1.symm
      subst hik
      rcases h4 with h4a | h4b
      · left
        rw [← h2]
        exact h4a
      · right
        simpa using h4b
    · intro hcond
      refine ⟨seed.length + ((batches.take (k + 1)).map List.length).sum,
        seed ++ (batches.take (k + 1)).flatten, ?_⟩
      apply (CapesDOI.save_events_mem seed I batches.length batches [] 0
        (k, _, _)).mpr
      exact ⟨k, hk, by simp, by simp, by simp, by simpa using hcond⟩
  · intro k t s hmem
    obtain ⟨i, hi, h1, h2, h3, h4⟩ :=
      (CapesDOI.save_events_mem seed I batches.length batches [] 0 (k, t, s)).mp hmem
    simp only [List.nil_append] at h2 h3
    have hik : i = k := by simpa using h1.symm
    subst hik
    refine ⟨h2, h3, ?_⟩
    rw [h3, h2]
    simp [List.length_flatten]

/-- Witness for the amended C4 theorem: a one-batch run saves at its only
(hence last) batch. -/
theorem checkpoint_save_trigger_witness :
    ∃ t s, ((0 : Nat), t, s) ∈ CapesDOI.batch_loop []
        [[CapesDOI.defaultEnrich ⟨none, 0⟩]] 1000 :=
  ((checkpoint_save_trigger [] [[CapesDOI.defaultEnrich ⟨none, 0⟩]] 1000).1 0
    (by decide)).mpr (by decide)

namespace CapesDOI

lemma mem_insert_by_mtime (f : CkptFile) (l : List CkptFile) (g : CkptFile) :
    g ∈ insert_by_mtime f l ↔ g = f ∨ g ∈ l := by
  induction l with
  | nil => simp [insert_by_mtime]
  | cons h0 t ih =>
    rw [insert_by_mtime]
    by_cases hc : f.mtime ≤ h0.mtime
    · simp [hc]
    · simp only [hc, if_false, List.mem_cons, ih]
      tauto

lemma sorted_insert_by_mtime (f : CkptFile) (l : List CkptFile)
    (h : l.Pairwise (fun a b => a.mtime ≤ b.mtime)) :
    (insert_by_mtime f l).Pairwise (fun a b => a.mtime ≤ b.mtime) := by
  induction l with
  | nil => simp [insert_by_mtime]
  | cons g t ih =>
    rw [insert_by_mtime]
    rcases List.pairwise_cons.mp h with ⟨hg, ht⟩
    by_cases hc : f.mtime ≤ g.mtime
    · rw [if_pos hc]
      refine List.pairwise_cons.mpr ⟨?_, h⟩
      intro b hb
      rcases List.mem_cons.mp hb with rfl | hbt
      · exact hc
      · exact Nat.le_trans hc (hg b hbt)
    · rw [if_neg hc]
      refine List.pairwise_cons.mpr ⟨?_, ih ht⟩
      intro b hb
      rcases (mem_insert_by_mtime f t b).mp hb with rfl | hbt
      · omega
      · exact hg b hbt

lemma sorted_sort_by_mtime (l : List CkptFile) :
    (sort_by_mtime l).Pairwise (fun a b => a.mtime ≤ b.mtime) := by
  induction l with
  | nil => simp [sort_by_mtime]
  | cons f t ih => exact sorted_insert_by_mtime f (sort_by_mtime t) ih

lemma prune_checkpoints_length_le (fs : List CkptFile) :
    (prune_checkpoints fs).length ≤ 3 := by
  unfold prune_checkpoints
  simp only [List.length_drop]
  omega

lemma foldl_save_length_le :
    ∀ (saves : List (Nat × Nat)) (fs : List CkptFile), saves ≠ [] →
      (saves.foldl (fun a p => save_checkpoint_files a p.1 p.2) fs).length ≤ 3 := by
  intro saves
  induction saves with
  | nil =>
    intro fs h
    exact absurd rfl h
  | cons p rest ih =>
    intro fs _
    cases rest with
    | nil => exact prune_checkpoints_length_le _
    | cons q qs => exact ih _ (by simp)

end CapesDOI

/-- C6: after any positive number of checkpoint saves for one target
size, at most 3 checkpoint files for that target size remain on storage,
because every save writes the snapshot file and then deletes all but the
3 most recently modified files - every deleted file's modification time
is at most that of every kept file. -/
theorem checkpoint_retention (fs : List CapesDOI.CkptFile) (saves : List (Nat × Nat))
    (hne : saves ≠ []) :
    (saves.foldl (fun a p => CapesDOI.save_checkpoint_files a p.1 p.2) fs).length ≤ 3
    ∧ ∀ (fs2 : List CapesDOI.CkptFile) (cnt mt : Nat),
        ∀ g ∈ (CapesDOI.sort_by_mtime (CapesDOI.write_file fs2 cnt mt)).take
            ((CapesDOI.sort_by_mtime (CapesDOI.write_file fs2 cnt mt)).length - 3),
          ∀ f ∈ CapesDOI.save_checkpoint_files fs2 cnt mt, g.mtime ≤ f.mtime := by
  constructor
  · exact CapesDOI.foldl_save_length_le saves fs hne
  · intro fs2 cnt mt g hg f hf
    have hs := CapesDOI.sorted_sort_by_mtime (CapesDOI.write_file fs2 cnt mt)
    rw [← List.take_append_drop
      ((CapesDOI.sort_by_mtime (CapesDOI.write_file fs2 cnt mt)).length - 3)
      (CapesDOI.sort_by_mtime (CapesDOI.write_file fs2 cnt mt))] at hs
    exact (List.pairwise_append.mp hs).2.2 g hg f hf

/-- Witness for the C6 theorem: one save on empty storage leaves at most
three files. -/
theorem checkpoint_retention_witness :
    (([((100 : Nat), (1 : Nat))]).foldl
      (fun a p => CapesDOI.save_checkpoint_files a p.1 p.2) []).length ≤ 3 :=
  (checkpoint_retention [] [(100, 1)] (by decide)).1
